import Mathlib

/-!
Shallow embedding of the `discoverygo` client library (a Go client for the
Ticketmaster Discovery API) and proofs about its request/pagination contract.

The embedding follows the two Go source files:
* `models.go` — `Link`, `Links`, `Page`, `EmbeddedResponse`, `PagedResponse`,
  `NextPage`, `PreviousPage`;
* the client file — `DiscoveryClient`, `EventsUrl`, `VenuesUrl`, `GetEvent`,
  `SearchEvents`, `QueryParams`, `UpdateURL`, `redactUrl`.

Modelling conventions:
* Go `int` is modelled as `Int` (the code never relies on wrap-around).
* `url.Values` (a `map[string][]string`) is modelled as an association list
  `Values := List (String × List String)`; `setVal`/`addVal`/`getVal` model
  `Values.Set`/`Values.Add`/map lookup (they update the first matching key;
  every `Values` arising in the model has pairwise-distinct keys, as a Go map
  does).  `encodeVals` models `Values.Encode`: keys sorted ascending, each
  value emitted as a `key=value` pair.
* `url.URL` is modelled as `GoURL`: an opaque scheme/host prefix, a list of
  path segments (`JoinPath` appends a segment) and the raw query modelled as
  the ordered list of `key=value` pairs that `RawQuery` would parse into.
  `GoURL.Query` models `URL.Query()` (parsing `RawQuery` into `url.Values`);
  `GoURL.toString` models `URL.String()` (percent-encoding each pair with
  `queryEscape`, Go's `url.QueryEscape`).
* External library behaviour that the repository merely calls is an oracle
  parameter `Ext`: `resolve` models `baseUrl.Parse(href)` (RFC 3986 reference
  resolution), `net url` models `http.Get(url)` — `none` meaning the GET
  failed at the network level, in which case Go's `http.Get` returns a nil
  `*http.Response` together with a non-nil error — and `decodePaged` /
  `decodeDoc` model `json.Decoder.Decode` into the respective target type
  (`none` = decode error).
* Each request-issuing operation is embedded as a function returning its Go
  return value together with an event trace: `Ev.get url` is recorded when
  `http.Get` is called, `Ev.closeBody` when the deferred `resp.Body.Close()`
  actually runs.  The Go sources register `defer resp.Body.Close()` *before*
  checking the error from `http.Get`; when the GET failed, `resp` is nil and
  evaluating `resp.Body` in the defer statement itself dereferences a nil
  pointer, so the operation panics before any deferred close is registered:
  this outcome is `POutcome.panicked` (and the trace carries no `closeBody`).
* `POutcome.ok a` models the Go return `(&a, nil)`, `POutcome.err e` models
  `(nil, e)` (nil result pointer, non-nil error), `POutcome.noPage` models
  the distinguished `(nil, nil)` return of the pagination methods.
-/

set_option linter.unusedVariables false

namespace DiscoveryGo

/-- A JSON value, used to model Go's `map[string]any` for loosely-typed
documents; the library never inspects these values. -/
inductive JsonValue where
  | null
  | bool (b : Bool)
  | num (n : Int)
  | str (s : String)
  | arr (elems : List JsonValue)
  | obj (fields : List (String × JsonValue))

/-- Go's `map[string]any`, as decoded from a JSON object. -/
abbrev Doc := List (String × JsonValue)

/-- `Link` (models.go): a link to another resource. -/
structure Link where
  Href : String
  Templated : Bool

/-- `Links` (models.go): the `_links` collection of a paged response. -/
structure Links where
  Self : Link
  Next : Link
  Prev : Link

/-- `Page` (models.go): pagination metadata of a paged response. -/
structure Page where
  Size : Int
  TotalElements : Int
  TotalPages : Int
  Number : Int

/-- `EmbeddedResponse` (models.go): the `_embedded` result collections. -/
structure EmbeddedResponse where
  Events : List Doc
  Venues : List Doc
  Attractions : List Doc
  Classifications : List Doc

/-- `PagedResponse` (models.go): a paginated Discovery API response. -/
structure PagedResponse where
  Links : Links
  Page : Page
  Embedded : EmbeddedResponse

/-- `url.Values`: Go's `map[string][]string`.  Modelled as an association
list from key to the list of values under that key. -/
abbrev Values := List (String × List String)

/-- Map lookup `v[key]`: the values stored under `k` (empty if absent). -/
def getVal : Values → String → List String
  | [], _ => []
  | g :: t, k => if g.1 == k then g.2 else getVal t k

/-- Membership test `_, exists := v[key]`. -/
def hasKey (vs : Values) (k : String) : Bool :=
  vs.any (fun g => g.1 == k)

/-- `Values.Set(key, value)`: `v[key] = []string{value}`. -/
def setVal : Values → String → String → Values
  | [], k, v => [(k, [v])]
  | g :: t, k, v => if g.1 == k then (k, [v]) :: t else g :: setVal t k v

/-- `Values.Add(key, value)`: `v[key] = append(v[key], value)`. -/
def addVal : Values → String → String → Values
  | [], k, v => [(k, [v])]
  | g :: t, k, v => if g.1 == k then (g.1, g.2 ++ [v]) :: t else g :: addVal t k v

/-- Lexicographic strict order on character lists by code point; on the
ASCII keys the library uses this agrees with Go's byte-wise string order. -/
def charsLt : List Char → List Char → Bool
  | [], [] => false
  | [], _ :: _ => true
  | _ :: _, [] => false
  | c :: cs, d :: ds =>
    if c.toNat < d.toNat then true
    else if d.toNat < c.toNat then false
    else charsLt cs ds

/-- Strict string order used by `sort.Strings` when `Values.Encode` sorts
its keys. -/
def strLt (s t : String) : Bool := charsLt s.data t.data

/-- Insert a keyed group into a list sorted ascending by key (helper for
`sortVals`). -/
def insertByKey (g : String × List String) : Values → Values
  | [] => [g]
  | h :: t => if strLt h.1 g.1 then h :: insertByKey g t else g :: h :: t

/-- Sort the groups of a `Values` ascending by key, as `Values.Encode` sorts
its keys before emitting them. -/
def sortVals (vs : Values) : Values :=
  vs.foldr insertByKey []

/-- Flatten keyed groups into the ordered list of `key=value` pairs. -/
def flattenVals : Values → List (String × String)
  | [] => []
  | g :: t => g.2.map (fun v => (g.1, v)) ++ flattenVals t

/-- `Values.Encode()`: keys sorted ascending, each value of a key emitted in
order as a `key=value` pair.  (The percent-encoding of the resulting string
happens in `GoURL.toString`, which renders the raw query.) -/
def encodeVals (vs : Values) : List (String × String) :=
  flattenVals (sortVals vs)

/-- Uppercase hexadecimal digit, as used by Go's `url.QueryEscape`. -/
def hexDigit (n : Nat) : Char :=
  if n < 10 then Char.ofNat (48 + n) else Char.ofNat (55 + n)

/-- Escape one byte as `url.QueryEscape` does: ASCII letters, digits and
`-_.~` unescaped, space as `+`, everything else percent-encoded. -/
def escapeByte (b : UInt8) : String :=
  let c : Char := Char.ofNat b.toNat
  if c.isAlphanum || c = '-' || c = '_' || c = '.' || c = '~' then
    String.singleton c
  else if c = ' ' then "+"
  else "%" ++ String.singleton (hexDigit (b.toNat / 16))
           ++ String.singleton (hexDigit (b.toNat % 16))

/-- The UTF-8 bytes of a string (the body of `String.toUTF8`, kept as a
plain list of bytes). -/
def utf8Bytes (s : String) : List UInt8 :=
  s.data.flatMap String.utf8EncodeChar

/-- Go's `url.QueryEscape`, applied to the UTF-8 bytes of the string. -/
def queryEscape (s : String) : String :=
  String.join ((utf8Bytes s).map escapeByte)

/-- Render a raw query (list of pairs) as the query string `k1=v1&k2=v2…`,
escaping keys and values as `Values.Encode` does. -/
def encodePairsString (ps : List (String × String)) : String :=
  String.intercalate "&" (ps.map (fun kv => queryEscape kv.1 ++ "=" ++ queryEscape kv.2))

/-- `url.URL`: `prePath` is the opaque `scheme://host` part, `path` the list
of path segments, `query` the raw query modelled as the ordered `key=value`
pairs `RawQuery` parses into. -/
structure GoURL where
  prePath : String
  path : List String
  query : List (String × String)

/-- `URL.JoinPath(seg)`: append a path segment. -/
def GoURL.joinPath (u : GoURL) (seg : String) : GoURL :=
  { u with path := u.path ++ [seg] }

/-- `URL.Query()`: parse the raw query into `url.Values`.  Go's `ParseQuery`
inserts each `key=value` pair in order with `Add` semantics. -/
def GoURL.Query (u : GoURL) : Values :=
  u.query.foldl (fun acc kv => addVal acc kv.1 kv.2) []

/-- `URL.String()`: prefix, `/`-joined path segments, and `?` followed by the
encoded raw query when the query is non-empty. -/
def GoURL.toString (u : GoURL) : String :=
  u.prePath ++ String.join (u.path.map (fun seg => "/" ++ seg))
    ++ (if u.query.isEmpty then "" else "?" ++ encodePairsString u.query)

/-- `DiscoveryApiUrl`: base URL to the Ticketmaster Discovery API. -/
def DiscoveryApiUrl : String := "https://app.ticketmaster.com/discovery/v2"

/-- `DiscoveryClient`: base API URL plus API key (consumer key). -/
structure DiscoveryClient where
  ApiUrl : GoURL
  ApiKey : String

/-- `DiscoveryClient.EventsUrl`: the events endpoint, with the API key added
as a query parameter (source: `eventsUrl := d.ApiUrl.JoinPath("events");
if d.ApiKey == "" { return *eventsUrl }; q := eventsUrl.Query();
q.Set("apikey", d.ApiKey); eventsUrl.RawQuery = q.Encode()`). -/
def DiscoveryClient.EventsUrl (d : DiscoveryClient) : GoURL :=
  let eventsUrl := d.ApiUrl.joinPath "events"
  if d.ApiKey = "" then eventsUrl
  else
    let q := setVal (GoURL.Query eventsUrl) "apikey" d.ApiKey
    { eventsUrl with query := encodeVals q }

/-- `DiscoveryClient.VenuesUrl`: the venues endpoint, same construction as
`EventsUrl` with the `venues` segment. -/
def DiscoveryClient.VenuesUrl (d : DiscoveryClient) : GoURL :=
  let venuesUrl := d.ApiUrl.joinPath "venues"
  if d.ApiKey = "" then venuesUrl
  else
    let q := setVal (GoURL.Query venuesUrl) "apikey" d.ApiKey
    { venuesUrl with query := encodeVals q }

/-- `QueryParams`: query parameters for the Discovery API (all `string`
fields, each with an `omitempty` JSON tag carrying its wire name). -/
structure QueryParams where
  Id : String
  «Sort» : String
  Page : String
  Size : String
  Locale : String
  Keyword : String
  IncludeTest : String
  IncludeTBA : String
  IncludeTBD : String
  VenueID : String
  StartDateTime : String
  EndDateTime : String
  CountryCode : String
  StateCode : String
  AttractionID : String
  SegmentID : String
  SegmentName : String
  ClassificationID : String
  ClassificationName : String
  MarketID : String
  PromoterID : String
  DmaID : String
  LatLong : String
  Radius : String
  Unit : String

/-- The fields of a `QueryParams` paired with their JSON wire names, in
declaration order. -/
def QueryParams.wireFields (q : QueryParams) : List (String × String) :=
  [("id", q.Id), ("sort", q.«Sort»), ("page", q.Page), ("size", q.Size),
   ("locale", q.Locale), ("keyword", q.Keyword),
   ("includeTest", q.IncludeTest), ("includeTBA", q.IncludeTBA),
   ("includeTBD", q.IncludeTBD), ("venueId", q.VenueID),
   ("startDateTime", q.StartDateTime), ("endDateTime", q.EndDateTime),
   ("countryCode", q.CountryCode), ("stateCode", q.StateCode),
   ("attractionId", q.AttractionID), ("segmentId", q.SegmentID),
   ("segmentName", q.SegmentName), ("classificationId", q.ClassificationID),
   ("classificationName", q.ClassificationName), ("marketId", q.MarketID),
   ("promoterId", q.PromoterID), ("dmaId", q.DmaID),
   ("latlong", q.LatLong), ("radius", q.Radius), ("unit", q.Unit)]

/-- The `map[string]string` produced inside `UpdateURL` by
`json.Marshal(q)` (whose `omitempty` tags drop empty fields) followed by
`json.Unmarshal` into a string map: exactly the non-empty fields of `q`,
keyed by their wire names.  Neither step can fail for a struct of plain
string fields, so the error returns of `UpdateURL` are dead. -/
def QueryParams.toMap (q : QueryParams) : List (String × String) :=
  q.wireFields.filter (fun kv => kv.2 != "")

/-- `QueryParams.UpdateURL(u, apikey)`: set `apikey`, add every non-empty
field of the marshalled map under its wire name, re-encode the query
(source: `query := u.Query(); query.Set("apikey", apikey);
for field, val := range qp { if val != "" { query.Add(field, val) } };
u.RawQuery = query.Encode()`). -/
def QueryParams.UpdateURL (q : QueryParams) (u : GoURL) (apikey : String) : GoURL :=
  let qp := q.toMap
  let query := GoURL.Query u
  let query := setVal query "apikey" apikey
  let query := qp.foldl (fun acc kv => if kv.2 != "" then addVal acc kv.1 kv.2 else acc) query
  { u with query := encodeVals query }

/-- The raw query produced by `redactUrl` before rendering: parse the query,
replace the `apikey` values by `REDACTED` if the key is present, re-encode
(source: `query := u.Query(); _, exists := query["apikey"];
if exists { query.Set("apikey", "REDACTED") }; u.RawQuery = query.Encode()`). -/
def redactedQuery (u : GoURL) : List (String × String) :=
  let query := GoURL.Query u
  encodeVals (if hasKey query "apikey" then setVal query "apikey" "REDACTED" else query)

/-- `redactUrl(u)`: the string of `u` with its `apikey` query parameter, when
present, replaced by the placeholder `REDACTED`. -/
def redactUrl (u : GoURL) : String :=
  GoURL.toString { u with query := redactedQuery u }

/-- An HTTP response as far as the library inspects it: `resp.StatusCode`
and the bytes of `resp.Body`. -/
structure HttpResponse where
  statusCode : Int
  body : String

/-- Behaviour of the external libraries the repository calls: `resolve`
models `baseUrl.Parse(href)`, `net` models `http.Get` (`none` = network-level
failure, i.e. nil `*http.Response` with a non-nil error), `decodePaged` and
`decodeDoc` model JSON decoding into the respective types (`none` = decode
error). -/
structure Ext where
  resolve : GoURL → String → GoURL
  net : String → Option HttpResponse
  decodePaged : String → Option PagedResponse
  decodeDoc : String → Option Doc

/-- Observable events of one operation: an outgoing `http.Get` and the
deferred `resp.Body.Close()` actually running. -/
inductive Ev where
  | get (url : String)
  | closeBody
deriving DecidableEq

/-- A typed error returned by an operation: the pagination depth guard
(`DepthLimitExceeded`), a non-200 status (`UnexpectedStatus`), or a JSON
decode failure (`DecodeError`).  The payload is the Go error message. -/
inductive Err where
  | depth (msg : String)
  | status (msg : String)
  | decode

/-- Outcome of one operation: `ok a` models `(&a, nil)`, `err e` models
`(nil, e)` (nil result pointer, non-nil error), `noPage` models the
`(nil, nil)` "no further page" return, and `panicked` models the runtime
panic caused by evaluating `resp.Body` in the defer statement while `resp`
is nil (network-level failure of `http.Get`). -/
inductive POutcome (α : Type) where
  | ok (a : α)
  | err (e : Err)
  | noPage
  | panicked

/-- Result of a document- or search-returning operation: the Go return value
plus the event trace. -/
structure Run (α : Type) where
  result : POutcome α
  trace : List Ev

/-- Result of a pagination method: the Go return value, the event trace, and
the values of the receiver and the client as the method leaves them (the
source never assigns through either pointer). -/
structure PagedRun where
  result : POutcome PagedResponse
  trace : List Ev
  pOut : PagedResponse
  clientOut : DiscoveryClient

/-- The message of the `fmt.Errorf("Status code: %d: %s", code, body)`
error returned on a non-200 status. -/
def statusMsg (code : Int) (body : String) : String :=
  "Status code: " ++ toString code ++ ": " ++ body

/-- The message of the `fmt.Errorf("Max page depth reached (%d)", n)` error
returned by the pagination depth guard. -/
def depthMsg (n : Int) : String :=
  "Max page depth reached (" ++ toString n ++ ")"

/-- The URL `GetEvent(id)` requests: `d.EventsUrl().JoinPath(id)`. -/
def getEventUrl (d : DiscoveryClient) (id : String) : GoURL :=
  (d.EventsUrl).joinPath id

/-- `DiscoveryClient.GetEvent(id)`: fetch one event by id as a generic
document.  `http.Get` failing at the network level leaves `resp` nil and the
`defer resp.Body.Close()` that the source places before the error check
panics; otherwise a non-200 status yields the status error, a decode failure
the decode error, and success the decoded document. -/
def getEventRun (d : DiscoveryClient) (id : String) (ext : Ext) : Run Doc :=
  let eventUrl := getEventUrl d id
  match ext.net eventUrl.toString with
  | none => ⟨.panicked, [.get eventUrl.toString]⟩
  | some resp =>
    if resp.statusCode ≠ 200 then
      ⟨.err (.status (statusMsg resp.statusCode resp.body)), [.get eventUrl.toString, .closeBody]⟩
    else
      match ext.decodeDoc resp.body with
      | none => ⟨.err .decode, [.get eventUrl.toString, .closeBody]⟩
      | some rs => ⟨.ok rs, [.get eventUrl.toString, .closeBody]⟩

/-- The URL `SearchEvents` requests: `queryParams.UpdateURL(d.EventsUrl(),
d.ApiKey)`. -/
def searchRequestUrl (d : DiscoveryClient) (queryParams : QueryParams) : GoURL :=
  queryParams.UpdateURL d.EventsUrl d.ApiKey

/-- `DiscoveryClient.SearchEvents(queryParams)`: same GET / status-check /
decode pipeline as `GetEvent`, decoding into a `PagedResponse`. -/
def searchEventsRun (d : DiscoveryClient) (queryParams : QueryParams) (ext : Ext) :
    Run PagedResponse :=
  let eventsUrl := searchRequestUrl d queryParams
  match ext.net eventsUrl.toString with
  | none => ⟨.panicked, [.get eventsUrl.toString]⟩
  | some resp =>
    if resp.statusCode ≠ 200 then
      ⟨.err (.status (statusMsg resp.statusCode resp.body)), [.get eventsUrl.toString, .closeBody]⟩
    else
      match ext.decodePaged resp.body with
      | none => ⟨.err .decode, [.get eventsUrl.toString, .closeBody]⟩
      | some rs => ⟨.ok rs, [.get eventsUrl.toString, .closeBody]⟩

/-- The URL `NextPage` requests: `rel, _ := baseUrl.Parse(p.Links.Next.Href);
q := rel.Query(); q.Set("apikey", client.ApiKey); rel.RawQuery = q.Encode()`. -/
def nextRequestUrl (p : PagedResponse) (client : DiscoveryClient) (ext : Ext) : GoURL :=
  let rel := ext.resolve client.ApiUrl p.Links.Next.Href
  { rel with query := encodeVals (setVal (GoURL.Query rel) "apikey" client.ApiKey) }

/-- The URL `PreviousPage` requests (as `nextRequestUrl`, reading
`p.Links.Prev.Href`). -/
def prevRequestUrl (p : PagedResponse) (client : DiscoveryClient) (ext : Ext) : GoURL :=
  let rel := ext.resolve client.ApiUrl p.Links.Prev.Href
  { rel with query := encodeVals (setVal (GoURL.Query rel) "apikey" client.ApiKey) }

/-- `PagedResponse.NextPage(client)` (models.go): the depth guard
`p.Page.Size*p.Page.Number >= 1000` first, then the empty-`Next`-link check
returning `(nil, nil)`, then resolve the link, attach the API key and run
the GET / status-check / decode pipeline. -/
def nextPageRun (p : PagedResponse) (client : DiscoveryClient) (ext : Ext) : PagedRun :=
  if p.Page.Size * p.Page.Number ≥ 1000 then
    ⟨.err (.depth (depthMsg (p.Page.Size * p.Page.Number))), [], p, client⟩
  else if p.Links.Next.Href = "" then
    ⟨.noPage, [], p, client⟩
  else
    let rel := nextRequestUrl p client ext
    match ext.net rel.toString with
    | none => ⟨.panicked, [.get rel.toString], p, client⟩
    | some resp =>
      if resp.statusCode ≠ 200 then
        ⟨.err (.status (statusMsg resp.statusCode resp.body)),
         [.get rel.toString, .closeBody], p, client⟩
      else
        match ext.decodePaged resp.body with
        | none => ⟨.err .decode, [.get rel.toString, .closeBody], p, client⟩
        | some rs => ⟨.ok rs, [.get rel.toString, .closeBody], p, client⟩

/-- `PagedResponse.PreviousPage(client)` (models.go): identical to
`NextPage` with `p.Links.Prev` in place of `p.Links.Next`. -/
def prevPageRun (p : PagedResponse) (client : DiscoveryClient) (ext : Ext) : PagedRun :=
  if p.Page.Size * p.Page.Number ≥ 1000 then
    ⟨.err (.depth (depthMsg (p.Page.Size * p.Page.Number))), [], p, client⟩
  else if p.Links.Prev.Href = "" then
    ⟨.noPage, [], p, client⟩
  else
    let rel := prevRequestUrl p client ext
    match ext.net rel.toString with
    | none => ⟨.panicked, [.get rel.toString], p, client⟩
    | some resp =>
      if resp.statusCode ≠ 200 then
        ⟨.err (.status (statusMsg resp.statusCode resp.body)),
         [.get rel.toString, .closeBody], p, client⟩
      else
        match ext.decodePaged resp.body with
        | none => ⟨.err .decode, [.get rel.toString, .closeBody], p, client⟩
        | some rs => ⟨.ok rs, [.get rel.toString, .closeBody], p, client⟩

/-- `sub` occurs as a contiguous substring of `s`. -/
def containsStr (s sub : String) : Prop :=
  ∃ p q, s = p ++ sub ++ q

/-- The values recorded under key `k` in a raw-query pair list, in order. -/
def pairsVals (ps : List (String × String)) (k : String) : List String :=
  (ps.filter (fun kv => kv.1 == k)).map (fun kv => kv.2)

/-- The concatenation of the value groups stored under key `k`, in group
order (agrees with `getVal` when keys are pairwise distinct). -/
def matchVals : Values → String → List String
  | [], _ => []
  | g :: t, k => (if g.1 == k then g.2 else []) ++ matchVals t k

/-- The keys of a `Values` are pairwise distinct, as they are for a Go map. -/
def keysNodup (vs : Values) : Prop :=
  (vs.map Prod.fst).Nodup

/-! ### Concrete fixtures used by counterexamples and witnesses -/

def emptyEmbedded : EmbeddedResponse := ⟨[], [], [], []⟩

/-- A `PagedResponse` with the given page size/number and link hrefs. -/
def mkPaged (size number : Int) (next prev : String) : PagedResponse :=
  ⟨⟨⟨"", false⟩, ⟨next, false⟩, ⟨prev, false⟩⟩, ⟨size, 0, 0, number⟩, emptyEmbedded⟩

/-- A `QueryParams` with every field empty. -/
def qpEmptyFix : QueryParams :=
  ⟨"", "", "", "", "", "", "", "", "", "", "", "", "",
   "", "", "", "", "", "", "", "", "", "", "", ""⟩

def clientFix : DiscoveryClient := ⟨⟨"https://h", [], []⟩, "KEY"⟩

/-- A base URL whose query already carries a foreign parameter `foo=bar`. -/
def u4Fix : GoURL := ⟨"https://h", [], [("foo", "bar")]⟩

/-- A URL whose `apikey` value also occurs as the value of another
parameter. -/
def u5Fix : GoURL := ⟨"https://h", ["x"], [("apikey", "SECRET"), ("other", "SECRET")]⟩

/-- A URL without an `apikey` parameter whose query is already in canonical
encoded order. -/
def uWFix : GoURL := ⟨"https://h", [], [("a", "1")]⟩

/-- A client with an empty API key whose base URL already carries an
`apikey` query parameter. -/
def d7Fix : DiscoveryClient := ⟨⟨"https://h", [], [("apikey", "OLD")]⟩, ""⟩

/-- A client with API key `K` and a pre-existing base query parameter. -/
def dKFix : DiscoveryClient := ⟨⟨"https://h", [], [("x", "1")]⟩, "K"⟩

/-- External behaviour where every `http.Get` fails at the network level. -/
def extFail : Ext := ⟨fun u _ => u, fun _ => none, fun _ => none, fun _ => none⟩

/-- External behaviour where every `http.Get` yields a 404 with body
`not found`. -/
def ext404 : Ext := ⟨fun u _ => u, fun _ => some ⟨404, "not found"⟩, fun _ => none, fun _ => none⟩

def pagedOkFix : PagedResponse := mkPaged 2 3 "nn" "pp"

/-- External behaviour where every `http.Get` yields a 200 whose body
decodes to `pagedOkFix`. -/
def ext200 : Ext :=
  ⟨fun u _ => u, fun _ => some ⟨200, "BODY"⟩, fun _ => some pagedOkFix, fun _ => some []⟩

/-- A page far below the depth limit, with both navigation links present. -/
def pNFix : PagedResponse := mkPaged 1 1 "n" "pv"

/-! ### Lemmas about `Values` operations -/

theorem getVal_addVal_self (vs : Values) (k v : String) :
    getVal (addVal vs k v) k = getVal vs k ++ [v] := by
  induction vs with
  | nil => simp [addVal, getVal]
  | cons g t ih =>
    by_cases h : g.1 = k
    · simp [addVal, getVal, h]
    · simp [addVal, getVal, h, ih]

theorem getVal_addVal_other (vs : Values) (k v k' : String) (h : k' ≠ k) :
    getVal (addVal vs k v) k' = getVal vs k' := by
  induction vs with
  | nil => simp [addVal, getVal, Ne.symm h]
  | cons g t ih =>
    by_cases hg : g.1 = k
    · subst hg
      simp [addVal, getVal, Ne.symm h]
    · by_cases hg' : g.1 = k'
      · simp [addVal, getVal, hg, hg', h]
      · simp [addVal, getVal, hg, hg', ih]

theorem getVal_setVal_self (vs : Values) (k v : String) :
    getVal (setVal vs k v) k = [v] := by
  induction vs with
  | nil => simp [setVal, getVal]
  | cons g t ih =>
    by_cases h : g.1 = k
    · simp [setVal, getVal, h]
    · simp [setVal, getVal, h, ih]

theorem getVal_setVal_other (vs : Values) (k v k' : String) (h : k' ≠ k) :
    getVal (setVal vs k v) k' = getVal vs k' := by
  induction vs with
  | nil => simp [setVal, getVal, Ne.symm h]
  | cons g t ih =>
    by_cases hg : g.1 = k
    · subst hg
      simp [setVal, getVal, Ne.symm h]
    · by_cases hg' : g.1 = k'
      · simp [setVal, getVal, hg, hg', h]
      · simp [setVal, getVal, hg, hg', ih]

theorem keys_addVal (vs : Values) (k v : String) :
    (addVal vs k v).map Prod.fst
      = if vs.any (fun g => g.1 == k) then vs.map Prod.fst
        else vs.map Prod.fst ++ [k] := by
  induction vs with
  | nil => simp [addVal]
  | cons g t ih =>
    by_cases hg : g.1 = k
    · simp [addVal, hg]
    · by_cases ha : t.any (fun g => g.1 == k) = true
      · simp [addVal, hg, ha, ih]
      · simp [addVal, hg, ha, ih]

theorem keys_setVal (vs : Values) (k v : String) :
    (setVal vs k v).map Prod.fst
      = if vs.any (fun g => g.1 == k) then vs.map Prod.fst
        else vs.map Prod.fst ++ [k] := by
  induction vs with
  | nil => simp [setVal]
  | cons g t ih =>
    by_cases hg : g.1 = k
    · simp [setVal, hg]
    · by_cases ha : t.any (fun g => g.1 == k) = true
      · simp [setVal, hg, ha, ih]
      · simp [setVal, hg, ha, ih]

theorem notMem_keys_addVal (vs : Values) (k v x : String)
    (hx : x ∉ vs.map Prod.fst) (hxk : x ≠ k) :
    x ∉ (addVal vs k v).map Prod.fst := by
  rw [keys_addVal]
  by_cases ha : vs.any (fun g => g.1 == k) = true
  · simpa [ha] using hx
  · simp [ha, hx, hxk]

theorem notMem_keys_setVal (vs : Values) (k v x : String)
    (hx : x ∉ vs.map Prod.fst) (hxk : x ≠ k) :
    x ∉ (setVal vs k v).map Prod.fst := by
  rw [keys_setVal]
  by_cases ha : vs.any (fun g => g.1 == k) = true
  · simpa [ha] using hx
  · simp [ha, hx, hxk]

theorem keysNodup_addVal (vs : Values) (k v : String) (h : keysNodup vs) :
    keysNodup (addVal vs k v) := by
  induction vs with
  | nil => simp [addVal, keysNodup]
  | cons g t ih =>
    simp only [keysNodup, List.map_cons, List.nodup_cons] at h
    by_cases hg : g.1 = k
    · simpa [addVal, hg, keysNodup, List.nodup_cons] using h
    · have ht := ih h.2
      have hm : g.1 ∉ (addVal t k v).map Prod.fst :=
        notMem_keys_addVal t k v g.1 h.1 hg
      simpa [addVal, hg, keysNodup, List.nodup_cons, hm] using ht

theorem keysNodup_setVal (vs : Values) (k v : String) (h : keysNodup vs) :
    keysNodup (setVal vs k v) := by
  induction vs with
  | nil => simp [setVal, keysNodup]
  | cons g t ih =>
    simp only [keysNodup, List.map_cons, List.nodup_cons] at h
    by_cases hg : g.1 = k
    · subst hg
      simpa [setVal, keysNodup, List.nodup_cons] using h
    · have ht := ih h.2
      have hm : g.1 ∉ (setVal t k v).map Prod.fst :=
        notMem_keys_setVal t k v g.1 h.1 hg
      simpa [setVal, hg, keysNodup, List.nodup_cons, hm] using ht

theorem matchVals_of_notMem (vs : Values) (k : String)
    (h : k ∉ vs.map Prod.fst) : matchVals vs k = [] := by
  induction vs with
  | nil => simp [matchVals]
  | cons g t ih =>
    simp only [List.map_cons, List.mem_cons] at h
    push_neg at h
    simp [matchVals, Ne.symm h.1, ih h.2]

theorem getVal_eq_matchVals (vs : Values) (k : String) (h : keysNodup vs) :
    getVal vs k = matchVals vs k := by
  induction vs with
  | nil => simp [getVal, matchVals]
  | cons g t ih =>
    simp only [keysNodup, List.map_cons, List.nodup_cons] at h
    by_cases hg : g.1 = k
    · subst hg
      simp [getVal, matchVals, matchVals_of_notMem t g.1 h.1]
    · simp [getVal, matchVals, hg, ih h.2]

theorem matchVals_insertByKey (g : String × List String) (l : Values) (k : String)
    (hg : g.1 = k → matchVals l k = []) :
    matchVals (insertByKey g l) k = (if g.1 == k then g.2 else []) ++ matchVals l k := by
  induction l with
  | nil => simp [insertByKey, matchVals]
  | cons h' t ih =>
    by_cases hlt : strLt h'.1 g.1 = true
    · have hg' : g.1 = k → matchVals t k = [] := by
        intro hk
        have h1 := hg hk
        rw [matchVals] at h1
        exact (List.append_eq_nil.mp h1).2
      rw [insertByKey, if_pos hlt, matchVals, ih hg', matchVals]
      by_cases hgk : g.1 = k
      · have h1 := hg hgk
        rw [matchVals] at h1
        obtain ⟨h1a, h1b⟩ := List.append_eq_nil.mp h1
        rw [h1a, h1b]
        simp
      · simp [hgk]
    · rw [insertByKey, if_neg hlt, matchVals, matchVals]

theorem matchVals_sortVals (vs : Values) (k : String) (h : keysNodup vs) :
    matchVals (sortVals vs) k = matchVals vs k := by
  induction vs with
  | nil => simp [sortVals, matchVals]
  | cons g t ih =>
    simp only [keysNodup, List.map_cons, List.nodup_cons] at h
    have ht := ih h.2
    have hg : g.1 = k → matchVals (sortVals t) k = [] := by
      intro hk
      rw [ht]
      exact matchVals_of_notMem t k (hk ▸ h.1)
    have : sortVals (g :: t) = insertByKey g (sortVals t) := rfl
    rw [this, matchVals_insertByKey g (sortVals t) k hg, ht]
    simp [matchVals]

theorem pairsVals_append (a b : List (String × String)) (k : String) :
    pairsVals (a ++ b) k = pairsVals a k ++ pairsVals b k := by
  simp [pairsVals]

theorem pairsVals_keyMap (name : String) (vals : List String) (k : String) :
    pairsVals (vals.map (fun v => (name, v))) k = if name == k then vals else [] := by
  induction vals with
  | nil => simp [pairsVals]
  | cons v t ih =>
    by_cases h : name = k
    · simpa [pairsVals, h] using ih
    · simp only [pairsVals, h] at ih
      simp [pairsVals, h, ih]

theorem pairsVals_flattenVals (vs : Values) (k : String) :
    pairsVals (flattenVals vs) k = matchVals vs k := by
  induction vs with
  | nil => simp [flattenVals, pairsVals, matchVals]
  | cons g t ih =>
    rw [flattenVals, pairsVals_append, pairsVals_keyMap, ih, matchVals]

theorem pairsVals_encodeVals (vs : Values) (k : String) (h : keysNodup vs) :
    pairsVals (encodeVals vs) k = getVal vs k := by
  rw [encodeVals, pairsVals_flattenVals, matchVals_sortVals vs k h,
    getVal_eq_matchVals vs k h]

theorem getVal_foldl_addVal (L : List (String × String)) (vs : Values) (k : String) :
    getVal (L.foldl (fun acc kv => addVal acc kv.1 kv.2) vs) k
      = getVal vs k ++ pairsVals L k := by
  induction L generalizing vs with
  | nil => simp [pairsVals]
  | cons kv t ih =>
    rw [List.foldl_cons, ih]
    by_cases h : kv.1 = k
    · simp [getVal_addVal_self, pairsVals, h]
    · simp [getVal_addVal_other vs kv.1 kv.2 k (fun hh => h hh.symm), pairsVals, h]

theorem getVal_foldl_addValCond (L : List (String × String)) (vs : Values) (k : String) :
    getVal (L.foldl (fun acc kv => if kv.2 != "" then addVal acc kv.1 kv.2 else acc) vs) k
      = getVal vs k ++ pairsVals (L.filter (fun kv => kv.2 != "")) k := by
  induction L generalizing vs with
  | nil => simp [pairsVals]
  | cons kv t ih =>
    rw [List.foldl_cons]
    by_cases hv : kv.2 = ""
    · simp only [hv, bne_self_eq_false, if_false, List.filter_cons]
      simpa [hv] using ih vs
    · have hbv : (kv.2 != "") = true := by simpa using hv
      rw [if_pos hbv, ih, List.filter_cons, hbv]
      by_cases h : kv.1 = k
      · simp [getVal_addVal_self, pairsVals, h]
      · simp [getVal_addVal_other vs kv.1 kv.2 k (fun hh => h hh.symm), pairsVals, h]

theorem keysNodup_foldl_addVal (L : List (String × String)) (vs : Values)
    (h : keysNodup vs) :
    keysNodup (L.foldl (fun acc kv => addVal acc kv.1 kv.2) vs) := by
  induction L generalizing vs with
  | nil => exact h
  | cons kv t ih => exact ih _ (keysNodup_addVal vs kv.1 kv.2 h)

theorem keysNodup_foldl_addValCond (L : List (String × String)) (vs : Values)
    (h : keysNodup vs) :
    keysNodup (L.foldl (fun acc kv => if kv.2 != "" then addVal acc kv.1 kv.2 else acc) vs) := by
  induction L generalizing vs with
  | nil => exact h
  | cons kv t ih =>
    by_cases hv : (kv.2 != "") = true
    · rw [List.foldl_cons, if_pos hv]
      exact ih _ (keysNodup_addVal vs kv.1 kv.2 h)
    · rw [List.foldl_cons, if_neg hv]
      exact ih _ h

theorem getVal_Query (u : GoURL) (k : String) :
    getVal (GoURL.Query u) k = pairsVals u.query k := by
  simpa [GoURL.Query, getVal] using getVal_foldl_addVal u.query [] k

theorem keysNodup_Query (u : GoURL) : keysNodup (GoURL.Query u) := by
  exact keysNodup_foldl_addVal u.query [] (by simp [keysNodup])

/-! ### Claim theorems -/

/-- Claim C1 (evidence for the code bug): on a network-level failure of
`http.Get` (nil response, non-nil error) each request-issuing operation
panics — the defer statement `defer resp.Body.Close()` placed before the
error check dereferences the nil `resp` — instead of returning the error
`(nil, err)` as the spec requires.  The subsequent `if err != nil { return
nil, err }` in each operation is unreachable on this path. -/
theorem c1_network_failure_panics :
    (nextPageRun pNFix clientFix extFail).result = POutcome.panicked
    ∧ (prevPageRun pNFix clientFix extFail).result = POutcome.panicked
    ∧ (getEventRun clientFix "e" extFail).result = POutcome.panicked
    ∧ (searchEventsRun clientFix qpEmptyFix extFail).result = POutcome.panicked :=
  ⟨rfl, rfl, rfl, rfl⟩

/-- Claim C2: for every `PagedResponse` with `Page.Size * Page.Number ≥
1000`, `NextPage` and `PreviousPage` return the depth-limit error (and a
nil response pointer) and perform no network call, regardless of the
`Links` contents. -/
theorem c2_depth_guard (p : PagedResponse) (client : DiscoveryClient) (ext : Ext)
    (h : p.Page.Size * p.Page.Number ≥ 1000) :
    (nextPageRun p client ext).result
        = POutcome.err (Err.depth (depthMsg (p.Page.Size * p.Page.Number)))
    ∧ (nextPageRun p client ext).trace = []
    ∧ (prevPageRun p client ext).result
        = POutcome.err (Err.depth (depthMsg (p.Page.Size * p.Page.Number)))
    ∧ (prevPageRun p client ext).trace = [] := by
  refine ⟨?_, ?_, ?_, ?_⟩ <;> simp [nextPageRun, prevPageRun, h]

/-- Witness for C2 at `Page.Size = 20`, `Page.Number = 50` (product exactly
1000) with both links present. -/
theorem c2_depth_guard_witness :
    (nextPageRun (mkPaged 20 50 "n" "pv") clientFix extFail).result
        = POutcome.err (Err.depth (depthMsg 1000))
    ∧ (nextPageRun (mkPaged 20 50 "n" "pv") clientFix extFail).trace = []
    ∧ (prevPageRun (mkPaged 20 50 "n" "pv") clientFix extFail).result
        = POutcome.err (Err.depth (depthMsg 1000))
    ∧ (prevPageRun (mkPaged 20 50 "n" "pv") clientFix extFail).trace = [] :=
  c2_depth_guard (mkPaged 20 50 "n" "pv") clientFix extFail (by decide)

/-- Claim C3 counterexample: a `PagedResponse` whose `Next`/`Prev` hrefs are
empty but whose `Page.Size * Page.Number` reaches 1000 does *not* yield the
claimed `(nil, nil)` — the depth guard runs first and returns an error. -/
theorem c3_counterexample :
    (nextPageRun (mkPaged 20 50 "" "") clientFix extFail).result ≠ POutcome.noPage
    ∧ (prevPageRun (mkPaged 20 50 "" "") clientFix extFail).result ≠ POutcome.noPage :=
  ⟨fun h => POutcome.noConfusion h, fun h => POutcome.noConfusion h⟩

/-- Claim C3 as amended: for every `PagedResponse` below the depth limit
(`Page.Size * Page.Number < 1000`), when the relevant link href is empty,
`NextPage` (for `Links.Next`) and `PreviousPage` (for `Links.Prev`) return
`(nil, nil)` and perform no network call. -/
theorem c3_no_link (p : PagedResponse) (client : DiscoveryClient) (ext : Ext)
    (hd : p.Page.Size * p.Page.Number < 1000) :
    (p.Links.Next.Href = "" →
      (nextPageRun p client ext).result = POutcome.noPage
      ∧ (nextPageRun p client ext).trace = [])
    ∧ (p.Links.Prev.Href = "" →
      (prevPageRun p client ext).result = POutcome.noPage
      ∧ (prevPageRun p client ext).trace = []) := by
  have hd' : ¬ (p.Page.Size * p.Page.Number ≥ 1000) := by omega
  exact ⟨fun hl => ⟨by simp [nextPageRun, hd', hl], by simp [nextPageRun, hd', hl]⟩,
         fun hl => ⟨by simp [prevPageRun, hd', hl], by simp [prevPageRun, hd', hl]⟩⟩

/-- Witness for the amended C3 at a page with `Size = 1`, `Number = 1` and
empty link hrefs. -/
theorem c3_no_link_witness :
    (nextPageRun (mkPaged 1 1 "" "") clientFix extFail).result = POutcome.noPage
    ∧ (prevPageRun (mkPaged 1 1 "" "") clientFix extFail).result = POutcome.noPage :=
  ⟨((c3_no_link (mkPaged 1 1 "" "") clientFix extFail (by decide)).1 rfl).1,
   ((c3_no_link (mkPaged 1 1 "" "") clientFix extFail (by decide)).2 rfl).1⟩

/-- Claim C10: `NextPage` and `PreviousPage` are the same function up to
which link field they read — for every page `p`, client and external
behaviour, `p.NextPage` returns exactly what `PreviousPage` returns on `p`
with `Links.Prev` replaced by `p.Links.Next`, with an identical event
trace. -/
theorem c10_next_prev_equiv (p : PagedResponse) (client : DiscoveryClient) (ext : Ext) :
    (nextPageRun p client ext).result
      = (prevPageRun { p with Links := { p.Links with Prev := p.Links.Next } } client ext).result
    ∧ (nextPageRun p client ext).trace
      = (prevPageRun { p with Links := { p.Links with Prev := p.Links.Next } } client ext).trace := by
  have hPage : ({ p with Links := { p.Links with Prev := p.Links.Next } } : PagedResponse).Page
      = p.Page := rfl
  have hPrev : ({ p with Links := { p.Links with Prev := p.Links.Next } } : PagedResponse).Links.Prev
      = p.Links.Next := rfl
  have hurl : prevRequestUrl { p with Links := { p.Links with Prev := p.Links.Next } } client ext
      = nextRequestUrl p client ext := rfl
  by_cases h1 : p.Page.Size * p.Page.Number ≥ 1000
  · constructor <;> simp [nextPageRun, prevPageRun, hPage, h1]
  by_cases h2 : p.Links.Next.Href = ""
  · constructor <;> simp [nextPageRun, prevPageRun, hPage, hPrev, h1, h2]
  cases hnet : ext.net (nextRequestUrl p client ext).toString with
  | none =>
    constructor <;> simp [nextPageRun, prevPageRun, hPage, hPrev, hurl, h1, h2, hnet]
  | some resp =>
    by_cases hs : resp.statusCode ≠ 200
    · constructor <;> simp [nextPageRun, prevPageRun, hPage, hPrev, hurl, h1, h2, hnet, hs]
    cases hdec : ext.decodePaged resp.body with
    | none =>
      constructor <;> simp [nextPageRun, prevPageRun, hPage, hPrev, hurl, h1, h2, hnet, hs, hdec]
    | some rs =>
      constructor <;> simp [nextPageRun, prevPageRun, hPage, hPrev, hurl, h1, h2, hnet, hs, hdec]

/-- Marshalling a `QueryParams` already drops its empty fields, so the
second emptiness filter inside the `UpdateURL` loop filters nothing. -/
theorem toMap_filter (qp : QueryParams) :
    qp.toMap.filter (fun kv => kv.2 != "") = qp.toMap := by
  apply List.filter_eq_self.mpr
  intro kv h
  rw [QueryParams.toMap] at h
  have hp := List.of_mem_filter h
  exact hp

/-- No wire name of a `QueryParams` field is `apikey`. -/
theorem toMap_no_apikey (qp : QueryParams) : pairsVals qp.toMap "apikey" = [] := by
  have hall : ∀ kv ∈ qp.toMap, ¬ ((fun kv : String × String => kv.1 == "apikey") kv = true) := by
    intro kv h
    have h2 : kv ∈ qp.wireFields := List.mem_of_mem_filter h
    simp only [QueryParams.wireFields, List.mem_cons, List.not_mem_nil, or_false] at h2
    rcases h2 with rfl|rfl|rfl|rfl|rfl|rfl|rfl|rfl|rfl|rfl|rfl|rfl|rfl|rfl|rfl|rfl|rfl|rfl|rfl|rfl|rfl|rfl|rfl|rfl|rfl <;> simp
  rw [pairsVals, List.filter_eq_nil_iff.mpr hall, List.map_nil]

/-- Claim C4 counterexample: with every `QueryParams` field empty, an empty
API key and the base URL `https://h?foo=bar`, the claim requires the built
query to contain no parameters at all (no field is non-empty, no key is
configured, and `foo` is not a wire name), yet the built query carries both
`foo=bar` (inherited from the base URL) and an `apikey=` parameter with the
empty key. -/
theorem c4_counterexample :
    pairsVals ((QueryParams.UpdateURL qpEmptyFix u4Fix "").query) "foo" = ["bar"]
    ∧ pairsVals ((QueryParams.UpdateURL qpEmptyFix u4Fix "").query) "apikey" = [""] :=
  ⟨by decide, by decide⟩

/-- Claim C4 as amended: for every `QueryParams`, base URL, API key string
and parameter name `k`, the query built by `UpdateURL` holds under `k`:
the key (exactly once) if `k = apikey` — even when the key is the empty
string — and otherwise the values of `k` in the base URL's query followed
by the value of the non-empty `QueryParams` field with wire name `k`, if
any.  In particular empty fields are never added, every non-empty field
appears under its wire name with its value, and parameters already present
in the base URL persist. -/
theorem c4_updateURL_query (qp : QueryParams) (u : GoURL) (apikey k : String) :
    pairsVals ((qp.UpdateURL u apikey).query) k
      = if k = "apikey" then [apikey]
        else pairsVals u.query k ++ pairsVals qp.toMap k := by
  have h1 : keysNodup (setVal (GoURL.Query u) "apikey" apikey) :=
    keysNodup_setVal _ _ _ (keysNodup_Query u)
  have h2 : keysNodup (qp.toMap.foldl
      (fun acc kv => if kv.2 != "" then addVal acc kv.1 kv.2 else acc)
      (setVal (GoURL.Query u) "apikey" apikey)) :=
    keysNodup_foldl_addValCond _ _ h1
  show pairsVals (encodeVals _) k = _
  rw [pairsVals_encodeVals _ k h2, getVal_foldl_addValCond, toMap_filter]
  by_cases hk : k = "apikey"
  · subst hk
    rw [getVal_setVal_self, toMap_no_apikey, if_pos rfl, List.append_nil]
  · rw [getVal_setVal_other _ _ _ _ hk, getVal_Query, if_neg hk]

/-- Claim C5 counterexample: redacting
`https://h/x?apikey=SECRET&other=SECRET` replaces only the `apikey`
parameter, so the redacted string still contains the original key value
`SECRET` (as the value of `other`), contradicting the claim that the
redacted string never contains it. -/
theorem c5_counterexample : containsStr (redactUrl u5Fix) "SECRET" :=
  ⟨"https://h/x?apikey=REDACTED&other=", "", by rfl⟩

/-- Claim C5 as amended: redaction replaces exactly the `apikey` parameter
values by `REDACTED` and leaves every other query parameter (and the rest
of the URL) unchanged, so the original key value survives only if it occurs
outside the `apikey` parameter; for a URL without an `apikey` parameter the
query parameters are unchanged (the query is merely re-encoded in canonical
sorted order, so a URL whose query is already canonically encoded is
returned verbatim). -/
theorem c5_redact_spec (u : GoURL) (k : String) :
    (pairsVals (redactedQuery u) k
      = if k = "apikey" ∧ hasKey (GoURL.Query u) "apikey" = true then ["REDACTED"]
        else pairsVals u.query k)
    ∧ redactUrl u = GoURL.toString { u with query := redactedQuery u }
    ∧ (hasKey (GoURL.Query u) "apikey" = false →
        u.query = encodeVals (GoURL.Query u) → redactUrl u = GoURL.toString u) := by
  refine ⟨?_, rfl, ?_⟩
  · by_cases hk : hasKey (GoURL.Query u) "apikey" = true
    · have h1 : keysNodup (setVal (GoURL.Query u) "apikey" "REDACTED") :=
        keysNodup_setVal _ _ _ (keysNodup_Query u)
      have hred : redactedQuery u = encodeVals (setVal (GoURL.Query u) "apikey" "REDACTED") := by
        simp [redactedQuery, hk]
      rw [hred, pairsVals_encodeVals _ k h1]
      by_cases hka : k = "apikey"
      · subst hka
        rw [getVal_setVal_self, if_pos ⟨rfl, hk⟩]
      · rw [getVal_setVal_other _ _ _ _ hka, getVal_Query, if_neg (fun hc => hka hc.1)]
    · have hkf : hasKey (GoURL.Query u) "apikey" = false := by simpa using hk
      have hred : redactedQuery u = encodeVals (GoURL.Query u) := by
        simp [redactedQuery, hkf]
      rw [hred, pairsVals_encodeVals _ k (keysNodup_Query u), getVal_Query,
        if_neg (fun hc => hk hc.2)]
  · intro hkf hcanon
    have hred : redactedQuery u = u.query := by
      simp only [redactedQuery, hkf, Bool.false_eq_true, if_false]
      exact hcanon.symm
    rw [redactUrl, hred]

/-- Witness for the amended C5: a URL with an `apikey` parameter has it
redacted to `REDACTED`, and a URL without one and with a canonically
encoded query is returned verbatim. -/
theorem c5_redact_spec_witness :
    pairsVals (redactedQuery u5Fix) "apikey" = ["REDACTED"]
    ∧ redactUrl uWFix = GoURL.toString uWFix :=
  ⟨by rw [(c5_redact_spec u5Fix "apikey").1, if_pos ⟨rfl, by decide⟩],
   (c5_redact_spec uWFix "a").2.2 (by decide) (by decide)⟩

/-- Claim C7 counterexample: for a client whose API key is empty but whose
base URL already carries `apikey=OLD`, `EventsUrl` returns a URL that still
carries an `apikey` parameter, contradicting the claim that with an empty
key the returned URL carries no `apikey` parameter. -/
theorem c7_counterexample :
    pairsVals ((DiscoveryClient.EventsUrl d7Fix).query) "apikey" = ["OLD"] := by
  decide

/-- Claim C7 as amended: `EventsUrl` and `VenuesUrl` append the resource
path segment to the base URL; when the API key is non-empty the returned
query carries `apikey` with exactly the configured key and every other
parameter of the base query unchanged; when the key is empty the base URL
(with the segment appended) is returned verbatim — no `apikey` is added,
but parameters already present in the base query, including a pre-existing
`apikey`, remain. -/
theorem c7_endpoint_urls (d : DiscoveryClient) :
    (d.ApiKey = "" →
      d.EventsUrl = d.ApiUrl.joinPath "events"
      ∧ d.VenuesUrl = d.ApiUrl.joinPath "venues")
    ∧ (d.ApiKey ≠ "" →
      pairsVals (d.EventsUrl).query "apikey" = [d.ApiKey]
      ∧ pairsVals (d.VenuesUrl).query "apikey" = [d.ApiKey]
      ∧ ∀ k, k ≠ "apikey" →
          pairsVals (d.EventsUrl).query k = pairsVals d.ApiUrl.query k
          ∧ pairsVals (d.VenuesUrl).query k = pairsVals d.ApiUrl.query k)
    ∧ (d.EventsUrl).path = d.ApiUrl.path ++ ["events"]
    ∧ (d.VenuesUrl).path = d.ApiUrl.path ++ ["venues"]
    ∧ (d.EventsUrl).prePath = d.ApiUrl.prePath
    ∧ (d.VenuesUrl).prePath = d.ApiUrl.prePath := by
  have h1e : keysNodup (setVal (GoURL.Query (d.ApiUrl.joinPath "events")) "apikey" d.ApiKey) :=
    keysNodup_setVal _ _ _ (keysNodup_Query _)
  have h1v : keysNodup (setVal (GoURL.Query (d.ApiUrl.joinPath "venues")) "apikey" d.ApiKey) :=
    keysNodup_setVal _ _ _ (keysNodup_Query _)
  refine ⟨fun h => ⟨?_, ?_⟩, fun h => ?_, ?_, ?_, ?_, ?_⟩
  · simp [DiscoveryClient.EventsUrl, h]
  · simp [DiscoveryClient.VenuesUrl, h]
  · have he : d.EventsUrl = { d.ApiUrl.joinPath "events" with
        query := encodeVals (setVal (GoURL.Query (d.ApiUrl.joinPath "events")) "apikey" d.ApiKey) } := by
      simp [DiscoveryClient.EventsUrl, h]
    have hv : d.VenuesUrl = { d.ApiUrl.joinPath "venues" with
        query := encodeVals (setVal (GoURL.Query (d.ApiUrl.joinPath "venues")) "apikey" d.ApiKey) } := by
      simp [DiscoveryClient.VenuesUrl, h]
    refine ⟨?_, ?_, fun k hk => ⟨?_, ?_⟩⟩
    · rw [he]
      show pairsVals (encodeVals _) _ = _
      rw [pairsVals_encodeVals _ _ h1e, getVal_setVal_self]
    · rw [hv]
      show pairsVals (encodeVals _) _ = _
      rw [pairsVals_encodeVals _ _ h1v, getVal_setVal_self]
    · rw [he]
      show pairsVals (encodeVals _) _ = _
      rw [pairsVals_encodeVals _ _ h1e, getVal_setVal_other _ _ _ _ hk, getVal_Query]
      rfl
    · rw [hv]
      show pairsVals (encodeVals _) _ = _
      rw [pairsVals_encodeVals _ _ h1v, getVal_setVal_other _ _ _ _ hk, getVal_Query]
      rfl
  · by_cases h : d.ApiKey = "" <;> simp [DiscoveryClient.EventsUrl, h, GoURL.joinPath]
  · by_cases h : d.ApiKey = "" <;> simp [DiscoveryClient.VenuesUrl, h, GoURL.joinPath]
  · by_cases h : d.ApiKey = "" <;> simp [DiscoveryClient.EventsUrl, h, GoURL.joinPath]
  · by_cases h : d.ApiKey = "" <;> simp [DiscoveryClient.VenuesUrl, h, GoURL.joinPath]

/-- Witness for the amended C7: the client `dKFix` (key `K`, base query
`x=1`) gets `apikey=K` attached and keeps `x=1`. -/
theorem c7_endpoint_urls_witness :
    pairsVals ((DiscoveryClient.EventsUrl dKFix).query) "apikey" = ["K"]
    ∧ pairsVals ((DiscoveryClient.EventsUrl dKFix).query) "x" = ["1"] :=
  ⟨((c7_endpoint_urls dKFix).2.1 (by decide)).1,
   (((c7_endpoint_urls dKFix).2.1 (by decide)).2.2 "x" (by decide)).1⟩

/-- Claim C6: whenever a request-issuing operation receives a response with
a status other than 200, it returns a nil result pointer together with the
`fmt.Errorf("Status code: %d: %s", status, body)` error, whose message
contains the status code and the response body text. -/
theorem c6_unexpected_status :
    (∀ (d : DiscoveryClient) (id : String) (ext : Ext) (resp : HttpResponse),
      ext.net (getEventUrl d id).toString = some resp → resp.statusCode ≠ 200 →
        (getEventRun d id ext).result
          = POutcome.err (Err.status (statusMsg resp.statusCode resp.body)))
    ∧ (∀ (d : DiscoveryClient) (qp : QueryParams) (ext : Ext) (resp : HttpResponse),
      ext.net (searchRequestUrl d qp).toString = some resp → resp.statusCode ≠ 200 →
        (searchEventsRun d qp ext).result
          = POutcome.err (Err.status (statusMsg resp.statusCode resp.body)))
    ∧ (∀ (p : PagedResponse) (c : DiscoveryClient) (ext : Ext) (resp : HttpResponse),
      p.Page.Size * p.Page.Number < 1000 → p.Links.Next.Href ≠ "" →
      ext.net (nextRequestUrl p c ext).toString = some resp → resp.statusCode ≠ 200 →
        (nextPageRun p c ext).result
          = POutcome.err (Err.status (statusMsg resp.statusCode resp.body)))
    ∧ (∀ (p : PagedResponse) (c : DiscoveryClient) (ext : Ext) (resp : HttpResponse),
      p.Page.Size * p.Page.Number < 1000 → p.Links.Prev.Href ≠ "" →
      ext.net (prevRequestUrl p c ext).toString = some resp → resp.statusCode ≠ 200 →
        (prevPageRun p c ext).result
          = POutcome.err (Err.status (statusMsg resp.statusCode resp.body)))
    ∧ (∀ (code : Int) (body : String),
        containsStr (statusMsg code body) (toString code)
        ∧ containsStr (statusMsg code body) body) := by
  refine ⟨?_, ?_, ?_, ?_, ?_⟩
  · intro d id ext resp hnet hs
    simp [getEventRun, hnet, hs]
  · intro d qp ext resp hnet hs
    simp [searchEventsRun, hnet, hs]
  · intro p c ext resp hd hl hnet hs
    have hd' : ¬ (p.Page.Size * p.Page.Number ≥ 1000) := by omega
    simp [nextPageRun, hd', hl, hnet, hs]
  · intro p c ext resp hd hl hnet hs
    have hd' : ¬ (p.Page.Size * p.Page.Number ≥ 1000) := by omega
    simp [prevPageRun, hd', hl, hnet, hs]
  · intro code body
    constructor
    · exact ⟨"Status code: ", ": " ++ body, by simp [statusMsg, String.append_assoc]⟩
    · exact ⟨"Status code: " ++ toString code ++ ": ", "", by simp [statusMsg, String.append_assoc]⟩

/-- Witness for C6 at a 404 response with body `not found`, for all four
operations. -/
theorem c6_unexpected_status_witness :
    (getEventRun clientFix "e" ext404).result
      = POutcome.err (Err.status (statusMsg 404 "not found"))
    ∧ (searchEventsRun clientFix qpEmptyFix ext404).result
      = POutcome.err (Err.status (statusMsg 404 "not found"))
    ∧ (nextPageRun pNFix clientFix ext404).result
      = POutcome.err (Err.status (statusMsg 404 "not found"))
    ∧ (prevPageRun pNFix clientFix ext404).result
      = POutcome.err (Err.status (statusMsg 404 "not found")) :=
  ⟨c6_unexpected_status.1 clientFix "e" ext404 ⟨404, "not found"⟩ rfl (by decide),
   c6_unexpected_status.2.1 clientFix qpEmptyFix ext404 ⟨404, "not found"⟩ rfl (by decide),
   c6_unexpected_status.2.2.1 pNFix clientFix ext404 ⟨404, "not found"⟩
     (by decide) (by decide) rfl (by decide),
   c6_unexpected_status.2.2.2.1 pNFix clientFix ext404 ⟨404, "not found"⟩
     (by decide) (by decide) rfl (by decide)⟩

/-- Claim C8: whenever a request-issuing operation receives a response
(i.e. `http.Get` did not fail at the network level — the outcome is a
success, a non-200 status, or a decode failure), the deferred
`resp.Body.Close()` runs before the operation returns. -/
theorem c8_body_closed :
    (∀ (d : DiscoveryClient) (id : String) (ext : Ext) (resp : HttpResponse),
      ext.net (getEventUrl d id).toString = some resp →
        Ev.closeBody ∈ (getEventRun d id ext).trace)
    ∧ (∀ (d : DiscoveryClient) (qp : QueryParams) (ext : Ext) (resp : HttpResponse),
      ext.net (searchRequestUrl d qp).toString = some resp →
        Ev.closeBody ∈ (searchEventsRun d qp ext).trace)
    ∧ (∀ (p : PagedResponse) (c : DiscoveryClient) (ext : Ext) (resp : HttpResponse),
      p.Page.Size * p.Page.Number < 1000 → p.Links.Next.Href ≠ "" →
      ext.net (nextRequestUrl p c ext).toString = some resp →
        Ev.closeBody ∈ (nextPageRun p c ext).trace)
    ∧ (∀ (p : PagedResponse) (c : DiscoveryClient) (ext : Ext) (resp : HttpResponse),
      p.Page.Size * p.Page.Number < 1000 → p.Links.Prev.Href ≠ "" →
      ext.net (prevRequestUrl p c ext).toString = some resp →
        Ev.closeBody ∈ (prevPageRun p c ext).trace) := by
  refine ⟨?_, ?_, ?_, ?_⟩
  · intro d id ext resp hnet
    by_cases hs : resp.statusCode ≠ 200
    · simp [getEventRun, hnet, hs]
    · cases hdec : ext.decodeDoc resp.body <;> simp [getEventRun, hnet, hs, hdec]
  · intro d qp ext resp hnet
    by_cases hs : resp.statusCode ≠ 200
    · simp [searchEventsRun, hnet, hs]
    · cases hdec : ext.decodePaged resp.body <;> simp [searchEventsRun, hnet, hs, hdec]
  · intro p c ext resp hd hl hnet
    have hd' : ¬ (p.Page.Size * p.Page.Number ≥ 1000) := by omega
    by_cases hs : resp.statusCode ≠ 200
    · simp [nextPageRun, hd', hl, hnet, hs]
    · cases hdec : ext.decodePaged resp.body <;> simp [nextPageRun, hd', hl, hnet, hs, hdec]
  · intro p c ext resp hd hl hnet
    have hd' : ¬ (p.Page.Size * p.Page.Number ≥ 1000) := by omega
    by_cases hs : resp.statusCode ≠ 200
    · simp [prevPageRun, hd', hl, hnet, hs]
    · cases hdec : ext.decodePaged resp.body <;> simp [prevPageRun, hd', hl, hnet, hs, hdec]

/-- Witness for C8: the 404 behaviour closes the body in all four
operations. -/
theorem c8_body_closed_witness :
    Ev.closeBody ∈ (getEventRun clientFix "e" ext404).trace
    ∧ Ev.closeBody ∈ (searchEventsRun clientFix qpEmptyFix ext404).trace
    ∧ Ev.closeBody ∈ (nextPageRun pNFix clientFix ext404).trace
    ∧ Ev.closeBody ∈ (prevPageRun pNFix clientFix ext404).trace :=
  ⟨c8_body_closed.1 clientFix "e" ext404 ⟨404, "not found"⟩ rfl,
   c8_body_closed.2.1 clientFix qpEmptyFix ext404 ⟨404, "not found"⟩ rfl,
   c8_body_closed.2.2.1 pNFix clientFix ext404 ⟨404, "not found"⟩ (by decide) (by decide) rfl,
   c8_body_closed.2.2.2 pNFix clientFix ext404 ⟨404, "not found"⟩ (by decide) (by decide) rfl⟩

/-- Claim C9: `NextPage` and `PreviousPage` never mutate the receiver or
the client configuration — the receiver and client values at exit equal
the inputs — and a successful call returns exactly the `PagedResponse`
freshly decoded from the 200 response body. -/
theorem c9_no_mutation_fresh_decode (p : PagedResponse) (c : DiscoveryClient) (ext : Ext) :
    ((nextPageRun p c ext).pOut = p ∧ (nextPageRun p c ext).clientOut = c
      ∧ (prevPageRun p c ext).pOut = p ∧ (prevPageRun p c ext).clientOut = c)
    ∧ (∀ r, (nextPageRun p c ext).result = POutcome.ok r →
        ∃ resp, ext.net (nextRequestUrl p c ext).toString = some resp
          ∧ resp.statusCode = 200 ∧ ext.decodePaged resp.body = some r)
    ∧ (∀ r, (prevPageRun p c ext).result = POutcome.ok r →
        ∃ resp, ext.net (prevRequestUrl p c ext).toString = some resp
          ∧ resp.statusCode = 200 ∧ ext.decodePaged resp.body = some r) := by
  have frameN : (nextPageRun p c ext).pOut = p ∧ (nextPageRun p c ext).clientOut = c := by
    by_cases h1 : p.Page.Size * p.Page.Number ≥ 1000
    · constructor <;> simp [nextPageRun, h1]
    by_cases h2 : p.Links.Next.Href = ""
    · constructor <;> simp [nextPageRun, h1, h2]
    cases hnet : ext.net (nextRequestUrl p c ext).toString with
    | none => constructor <;> simp [nextPageRun, h1, h2, hnet]
    | some resp =>
      by_cases hs : resp.statusCode ≠ 200
      · constructor <;> simp [nextPageRun, h1, h2, hnet, hs]
      cases hdec : ext.decodePaged resp.body with
      | none => constructor <;> simp [nextPageRun, h1, h2, hnet, hs, hdec]
      | some rs => constructor <;> simp [nextPageRun, h1, h2, hnet, hs, hdec]
  have frameP : (prevPageRun p c ext).pOut = p ∧ (prevPageRun p c ext).clientOut = c := by
    by_cases h1 : p.Page.Size * p.Page.Number ≥ 1000
    · constructor <;> simp [prevPageRun, h1]
    by_cases h2 : p.Links.Prev.Href = ""
    · constructor <;> simp [prevPageRun, h1, h2]
    cases hnet : ext.net (prevRequestUrl p c ext).toString with
    | none => constructor <;> simp [prevPageRun, h1, h2, hnet]
    | some resp =>
      by_cases hs : resp.statusCode ≠ 200
      · constructor <;> simp [prevPageRun, h1, h2, hnet, hs]
      cases hdec : ext.decodePaged resp.body with
      | none => constructor <;> simp [prevPageRun, h1, h2, hnet, hs, hdec]
      | some rs => constructor <;> simp [prevPageRun, h1, h2, hnet, hs, hdec]
  have freshN : ∀ r, (nextPageRun p c ext).result = POutcome.ok r →
      ∃ resp, ext.net (nextRequestUrl p c ext).toString = some resp
        ∧ resp.statusCode = 200 ∧ ext.decodePaged resp.body = some r := by
    intro r hr
    by_cases h1 : p.Page.Size * p.Page.Number ≥ 1000
    · simp [nextPageRun, h1] at hr
    by_cases h2 : p.Links.Next.Href = ""
    · simp [nextPageRun, h1, h2] at hr
    cases hnet : ext.net (nextRequestUrl p c ext).toString with
    | none => simp [nextPageRun, h1, h2, hnet] at hr
    | some resp =>
      by_cases hs : resp.statusCode ≠ 200
      · simp [nextPageRun, h1, h2, hnet, hs] at hr
      cases hdec : ext.decodePaged resp.body with
      | none => simp [nextPageRun, h1, h2, hnet, hs, hdec] at hr
      | some rs =>
        simp [nextPageRun, h1, h2, hnet, hs, hdec] at hr
        subst hr
        exact ⟨resp, rfl, not_not.mp hs, hdec⟩
  have freshP : ∀ r, (prevPageRun p c ext).result = POutcome.ok r →
      ∃ resp, ext.net (prevRequestUrl p c ext).toString = some resp
        ∧ resp.statusCode = 200 ∧ ext.decodePaged resp.body = some r := by
    intro r hr
    by_cases h1 : p.Page.Size * p.Page.Number ≥ 1000
    · simp [prevPageRun, h1] at hr
    by_cases h2 : p.Links.Prev.Href = ""
    · simp [prevPageRun, h1, h2] at hr
    cases hnet : ext.net (prevRequestUrl p c ext).toString with
    | none => simp [prevPageRun, h1, h2, hnet] at hr
    | some resp =>
      by_cases hs : resp.statusCode ≠ 200
      · simp [prevPageRun, h1, h2, hnet, hs] at hr
      cases hdec : ext.decodePaged resp.body with
      | none => simp [prevPageRun, h1, h2, hnet, hs, hdec] at hr
      | some rs =>
        simp [prevPageRun, h1, h2, hnet, hs, hdec] at hr
        subst hr
        exact ⟨resp, rfl, not_not.mp hs, hdec⟩
  exact ⟨⟨frameN.1, frameN.2, frameP.1, frameP.2⟩, freshN, freshP⟩

/-- Witness for C9: with a 200 behaviour whose body decodes to
`pagedOkFix`, the receiver and client are unchanged and the result is the
freshly decoded page. -/
theorem c9_no_mutation_witness :
    (nextPageRun pNFix clientFix ext200).pOut = pNFix
    ∧ (nextPageRun pNFix clientFix ext200).clientOut = clientFix
    ∧ ∃ resp, Ext.net ext200 (nextRequestUrl pNFix clientFix ext200).toString = some resp
        ∧ resp.statusCode = 200 ∧ Ext.decodePaged ext200 resp.body = some pagedOkFix :=
  ⟨(c9_no_mutation_fresh_decode pNFix clientFix ext200).1.1,
   (c9_no_mutation_fresh_decode pNFix clientFix ext200).1.2.1,
   (c9_no_mutation_fresh_decode pNFix clientFix ext200).2.1 pagedOkFix rfl⟩

end DiscoveryGo
